import Mathlib

/-!
Shallow embedding, in Lean 4, of the parts of the `intact` repository that the
specification's claims are about:

* `intact/modules/models/mdp_world_model/plain_wm.py` —
  `PlainMDPWorldModel.get_log_var` (two-sided softplus log-variance clamp) and
  `PlainMDPWorldModel.get_outputs` (splitting the network output into
  next-observation / reward / termination heads, residual connection).
* `causal_meta/modules/models/context_model.py` — `ContextModel.__init__`,
  `reset`, `forward`, `get_mcc`.
* `tdfa/utils/metrics.py` — `mean_corr_coef` (mean correlation coefficient via
  optimal linear-sum assignment over the absolute correlation matrix).

Python floats are modelled as real numbers (`ℝ`); tensors are modelled either
as functions out of `Fin` (for fixed-shape numeric data) or as lists of lists
(for the context table, whose shape changes at `reset`).  Fallible code
(Python `raise` / failing `assert`) is modelled with `Except String`.
External library routines (`torch.nn.functional.softplus`, `np.corrcoef`,
`scipy.stats.spearmanr`, `scipy.optimize.linear_sum_assignment`) are embedded
by their documented mathematical behaviour.
-/

namespace Intact

/-- Softplus, `torch.nn.functional.softplus` with default `beta = 1`:
`softplus x = log (1 + exp x)`.  (The float implementation short-circuits to
the identity above an internal threshold; that is a floating-point
optimisation of the same mathematical function, so the exact function is
used here.) -/
noncomputable def softplus (x : ℝ) : ℝ :=
  Real.log (1 + Real.exp x)

/-- Configuration fields of `PlainMDPWorldModel` that its
`get_log_var` / `get_outputs` methods read (`plain_wm.py`).
`log_var_bounds` defaults to `(-10.0, 0.5)` in the constructor. -/
structure PlainMDPWorldModel where
  obs_dim : ℕ
  action_dim : ℕ
  residual : Bool := true
  learn_obs_var : Bool := true
  log_var_bounds : ℝ × ℝ := (-10.0, 0.5)

/-- Model of `PlainMDPWorldModel.get_log_var` (`plain_wm.py`, lines 62-66):

    min_log_var, max_log_var = self.log_var_bounds
    log_var = max_log_var - F.softplus(max_log_var - log_var)
    log_var = min_log_var + F.softplus(log_var - min_log_var)
-/
noncomputable def PlainMDPWorldModel.get_log_var
    (m : PlainMDPWorldModel) (log_var : ℝ) : ℝ :=
  let min_log_var := m.log_var_bounds.1
  let max_log_var := m.log_var_bounds.2
  let log_var1 := max_log_var - softplus (max_log_var - log_var)
  min_log_var + softplus (log_var1 - min_log_var)

/-- Record of the five tensors returned by `PlainMDPWorldModel.get_outputs`,
at a flat batch of size `B` (in `get_outputs` the batch is the flattened
leading shape, and the trailing `reshape(*batch_size, ·)` calls only
re-group leading dimensions).  Reward/termination columns have width 1 and
are modelled as a single real per batch element. -/
structure WMOutputs (B obs_dim : ℕ) where
  next_obs_mean : Fin B → Fin obs_dim → ℝ
  next_obs_log_var : Fin B → Fin obs_dim → ℝ
  reward_mean : Fin B → ℝ
  reward_log_var : Fin B → ℝ
  terminated : Fin B → ℝ

/-- Model of `PlainMDPWorldModel.get_outputs` (`plain_wm.py`, lines 68-95).
The `mean` / `log_var` halves of the network output have width
`obs_dim + 2`: `mean[:, :-2]` is the next-observation part, `mean[:, -2:-1]`
the reward, `mean[:, -1:]` the termination logit.  When `learn_obs_var` is
false the observation and reward log-variances are `torch.zeros_like(...)`;
when `residual` is true the current observation is added to the predicted
next-observation mean. -/
noncomputable def PlainMDPWorldModel.get_outputs
    (m : PlainMDPWorldModel) {B : ℕ}
    (mean log_var : Fin B → Fin (m.obs_dim + 2) → ℝ)
    (observation : Fin B → Fin m.obs_dim → ℝ) :
    WMOutputs B m.obs_dim :=
  let next_obs_mean0 : Fin B → Fin m.obs_dim → ℝ :=
    fun b i => mean b (Fin.castAdd 2 i)
  { next_obs_mean :=
      if m.residual then fun b i => observation b i + next_obs_mean0 b i
      else next_obs_mean0
    next_obs_log_var :=
      if m.learn_obs_var then
        fun b i => m.get_log_var (log_var b (Fin.castAdd 2 i))
      else fun _ _ => 0
    reward_mean := fun b => mean b ⟨m.obs_dim, by omega⟩
    reward_log_var :=
      if m.learn_obs_var then
        fun b => m.get_log_var (log_var b ⟨m.obs_dim, by omega⟩)
      else fun _ => 0
    terminated := fun b => mean b ⟨m.obs_dim + 1, by omega⟩ }

/-- Output of `ContextModel.forward`: either a 1-D tensor (the empty
embedding `torch.empty(0)` of the non-meta branch) or a 2-D tensor of
looked-up context rows. -/
inductive TTensor where
  | one (xs : List ℝ)
  | two (xss : List (List ℝ))

/-- Predicate for an `Except` value being an error (a raised Python
exception / failed `assert`). -/
def isError {ε α : Type} : Except ε α → Bool
  | .error _ => true
  | .ok _ => false

/-- State of a `ContextModel` (`context_model.py`): the constructor
arguments (with their Python default values) plus the learnable context
table `context_hat` (a `task_num × max_context_dim` parameter, stored as a
list of rows) and the device it lives on (an opaque tag). -/
structure ContextModel where
  meta : Bool := false
  max_context_dim : ℕ := 0
  task_num : ℕ := 0
  init_scale : ℝ := 0
  context_hat : List (List ℝ) := []
  device : ℕ := 0

/-- Model of `ContextModel.__init__`:
`init_context_hat = torch.randn(task_num, max_context_dim) * init_scale`.
The standard-normal draw at position `(i, j)` is supplied by `randn i j`. -/
def ContextModel.init (meta : Bool) (max_context_dim task_num : ℕ)
    (init_scale : ℝ) (randn : ℕ → ℕ → ℝ) (device : ℕ) : ContextModel :=
  { meta := meta, max_context_dim := max_context_dim, task_num := task_num,
    init_scale := init_scale,
    context_hat := (List.range task_num).map (fun i =>
      (List.range max_context_dim).map (fun j => randn i j * init_scale)),
    device := device }

/-- Model of `ContextModel.reset` (`context_model.py`, lines 25-30):

    device = self.context_hat.device
    self.task_num = task_num or self.task_num
    init_context_hat = torch.randn(self.task_num, self.max_context_dim) * self.init_scale
    self.context_hat.data = init_context_hat.to(device)

Python's `or` falls back to the stored `self.task_num` when the argument is
`None` (modelled as `Option.none`) or the falsy integer `0`.  The fresh
standard-normal draw is supplied by `randn`.  The method has no failure
path, so the result is always `Except.ok`. -/
def ContextModel.reset (cm : ContextModel) (task_num : Option ℕ)
    (randn : ℕ → ℕ → ℝ) : Except String ContextModel :=
  let new_task_num :=
    match task_num with
    | none => cm.task_num
    | some n => if n = 0 then cm.task_num else n
  .ok { cm with
        task_num := new_task_num,
        context_hat := (List.range new_task_num).map (fun i =>
          (List.range cm.max_context_dim).map (fun j =>
            randn i j * cm.init_scale)) }

/-- Model of `ContextModel.forward` (`context_model.py`, lines 41-47):

    if idx is None:
        assert not self.meta, "idx should not be None when meta is True"
        return torch.empty(0).to(self.context_hat.device)
    assert idx.shape[-1] == 1, "last dim of idx should be 1, got ..."
    return self.context_hat[idx[..., 0]]

`idx` is modelled as an optional 2-D integer tensor (a list of rows); for a
genuine (non-ragged) tensor, `shape[-1] == 1` holds exactly when every row
has length 1.  The advanced indexing `self.context_hat[idx[..., 0]]` returns
one table row per batch row, and raises when an index is out of range.
Failing `assert`s and the out-of-range lookup are `Except.error`. -/
def ContextModel.forward (cm : ContextModel) (idx : Option (List (List ℕ))) :
    Except String TTensor :=
  match idx with
  | none =>
      if cm.meta then .error "idx should not be None when meta is True"
      else .ok (.one [])
  | some rows =>
      if rows.all (fun r => r.length = 1) then
        if rows.all (fun r => r.headD 0 < cm.context_hat.length) then
          .ok (.two (rows.map (fun r => cm.context_hat.getD (r.headD 0) [])))
        else .error "index out of range"
      else .error "last dim of idx should be 1"

/-- Model of `torch.cat([obs, ctx], dim=-1)` for a 2-D observation `obs` and
a `ContextModel` output, as used in this repository (`test_context_model`,
`PlainMDPWorldModel.forward`): concatenating the empty 1-D tensor
`torch.empty(0)` is a no-op, a 2-D tensor must have the same number of rows
and is appended row-wise, and anything else is a shape error. -/
def cat_last (obs : List (List ℝ)) : TTensor → Except String (List (List ℝ))
  | .one [] => .ok obs
  | .one _ => .error "tensors must have the same number of dimensions"
  | .two c =>
      if c.length = obs.length then .ok (List.zipWith (· ++ ·) obs c)
      else .error "sizes of tensors must match"

/-- Mean of a sample vector. -/
noncomputable def sampleMean {N : ℕ} (u : Fin N → ℝ) : ℝ :=
  (∑ n, u n) / N

/-- Centred cross moment `∑ n (u n - mean u) * (v n - mean v)`: the common
numerator of the covariance estimates in `np.corrcoef` (the `1/(N-1)`
covariance normalisation cancels between the numerator and denominator of a
correlation coefficient, so raw centred sums give the same ratio). -/
noncomputable def cmoment {N : ℕ} (u v : Fin N → ℝ) : ℝ :=
  ∑ n, (u n - sampleMean u) * (v n - sampleMean v)

/-- Pearson correlation coefficient of two sample vectors, as computed by
`np.corrcoef`: covariance divided by the product of standard deviations.
(`np.corrcoef` additionally clips to `[-1, 1]` against float rounding; in
exact real arithmetic that clip is a no-op.) -/
noncomputable def pearson {N : ℕ} (u v : Fin N → ℝ) : ℝ :=
  cmoment u v / (Real.sqrt (cmoment u u) * Real.sqrt (cmoment v v))

open Classical in
/-- Average rank of entry `n` of a sample vector (1-based; tied values share
the average of their positions), as assigned by the rank transform inside
`scipy.stats.spearmanr`. -/
noncomputable def avgRank {N : ℕ} (u : Fin N → ℝ) (n : Fin N) : ℝ :=
  ((Finset.univ.filter fun m => u m < u n).card : ℝ) +
    (((Finset.univ.filter fun m => u m = u n).card : ℝ) + 1) / 2

/-- Spearman rank correlation of two sample vectors, as computed by
`scipy.stats.spearmanr`: the Pearson correlation of the average-rank
transforms. -/
noncomputable def spearman {N : ℕ} (u v : Fin N → ℝ) : ℝ :=
  pearson (avgRank u) (avgRank v)

/-- Column `j` of a data matrix whose rows are samples. -/
def matCol {N d : ℕ} (x : Fin N → Fin d → ℝ) (j : Fin d) : Fin N → ℝ :=
  fun n => x n j

/-- Cross-correlation block `np.corrcoef(x, y, rowvar=False)[:d, d:]`
(`metrics.py`, line 27): entry `(i, j)` is the Pearson correlation between
column `i` of `x` and column `j` of `y`. -/
noncomputable def ccPearson {N d1 d2 : ℕ} (x : Fin N → Fin d1 → ℝ)
    (y : Fin N → Fin d2 → ℝ) : Fin d1 → Fin d2 → ℝ :=
  fun i j => pearson (matCol x i) (matCol y j)

/-- Cross-correlation block `spearmanr(x, y)[0][:d, d:]` (`metrics.py`,
line 29): entry `(i, j)` is the Spearman rank correlation between column `i`
of `x` and column `j` of `y`. -/
noncomputable def ccSpearman {N d1 d2 : ℕ} (x : Fin N → Fin d1 → ℝ)
    (y : Fin N → Fin d2 → ℝ) : Fin d1 → Fin d2 → ℝ :=
  fun i j => spearman (matCol x i) (matCol y j)

/-- Method dispatch at the top of `mean_corr_coef` (`metrics.py`, lines
25-30): `'pearson'` and `'spearman'` select the corresponding correlation
matrix, anything else raises
`ValueError('not a valid method: ...')` before any correlation or
assignment computation happens. -/
noncomputable def ccOfMethod (method : String) {N d1 d2 : ℕ}
    (x : Fin N → Fin d1 → ℝ) (y : Fin N → Fin d2 → ℝ) :
    Except String (Fin d1 → Fin d2 → ℝ) :=
  if method = "pearson" then .ok (ccPearson x y)
  else if method = "spearman" then .ok (ccSpearman x y)
  else .error ("not a valid method: " ++ method)

/-- Finset of the injective maps `Fin n → Fin m`: the one-to-one assignments
of the `n` rows of an `n × m` cost matrix to distinct columns. -/
def Injections (n m : ℕ) : Finset (Fin n → Fin m) :=
  Finset.univ.filter Function.Injective

/-- Model of `scipy.optimize.linear_sum_assignment` on an `n × m` matrix
with `n ≤ m`, maximising the matched sum `∑ i, c i (f i)` (the code passes
the negated cost `-1 * cc`, turning scipy's minimum-cost matching into a
maximum matching): a deterministic choice of an optimal injective
row-to-column assignment.  Which optimal assignment scipy returns when
several are tied is implementation-defined; correspondingly the model fixes
an arbitrary optimal one. -/
noncomputable def lsaRows {n m : ℕ} (c : Fin n → Fin m → ℝ) (h : n ≤ m) :
    Fin n → Fin m :=
  (Finset.exists_max_image (Injections n m) (fun f => ∑ i, c i (f i))
    ⟨Fin.castLE h, by
      simpa [Injections] using Fin.castLE_injective h⟩).choose

/-- Matched total `cc[permutation].sum()` (`metrics.py`, line 33): the
summed cost over the assignment returned by `linear_sum_assignment`.  For a
wide matrix (`d1 ≤ d2`) the assignment maps each row to a distinct column;
for a tall matrix it maps each column to a distinct row (scipy matches
`min(d1, d2)` pairs either way). -/
noncomputable def assignScore {d1 d2 : ℕ} (c : Fin d1 → Fin d2 → ℝ) : ℝ :=
  if h : d1 ≤ d2 then ∑ i, c i (lsaRows c h i)
  else ∑ j, c (lsaRows (fun j i => c i j) (le_of_not_le h) j) j

/-- Model of `mean_corr_coef` (`tdfa/utils/metrics.py`): build the `d1 × d2`
correlation matrix for the requested method (raising for any other method
string), take absolute values, solve the optimal assignment on the negated
matrix, and return the matched absolute correlations summed and divided by
`max(d1, d2)`.  This is the scalar result (`return_permutation=False`);
`mccAssign` below is the permutation component of the
`return_permutation=True` result. -/
noncomputable def mean_corr_coef {N d1 d2 : ℕ} (x : Fin N → Fin d1 → ℝ)
    (y : Fin N → Fin d2 → ℝ) (method : String) : Except String ℝ :=
  match ccOfMethod method x y with
  | .error e => .error e
  | .ok cc => .ok (assignScore (fun i j => |cc i j|) / ((max d1 d2 : ℕ) : ℝ))

/-- Assignment component of `mean_corr_coef(..., return_permutation=True)`
for `d1 ≤ d2`: the optimal row-to-column matching of the
absolute-correlation matrix (scipy's `col_ind`, its `row_ind` being the
identity `0..d1-1` in this orientation). -/
noncomputable def mccAssign {N d1 d2 : ℕ} (x : Fin N → Fin d1 → ℝ)
    (y : Fin N → Fin d2 → ℝ) (method : String) (h : d1 ≤ d2) :
    Except String (Fin d1 → Fin d2) :=
  match ccOfMethod method x y with
  | .error e => .error e
  | .ok cc => .ok (lsaRows (fun i j => |cc i j|) h)

/-- Learned context table of a `ContextModel` as a matrix
(`self.context_hat.detach().cpu().numpy()` in `get_mcc` with
`valid_idx = None`). -/
def contextHatMatrix (cm : ContextModel) :
    Fin cm.task_num → Fin cm.max_context_dim → ℝ :=
  fun i j => (cm.context_hat.getD i []).getD j 0

/-- Model of `ContextModel.get_mcc` (`context_model.py`, lines 55-64) with
`valid_idx = None`: delegates to
`mean_corr_coef(context_gt, context_hat, return_permutation=True,
method=method)`.  The model returns the `mcc` score component; the
permutation and `context_hat` values returned alongside it involve no
further computation. -/
noncomputable def ContextModel.get_mcc (cm : ContextModel) {dg : ℕ}
    (context_gt : Fin cm.task_num → Fin dg → ℝ) (method : String) :
    Except String ℝ :=
  mean_corr_coef context_gt (contextHatMatrix cm) method

/-- Model of `ContextModel.get_mcc` called without an explicit `method`
argument: the Python signature declares the default `method="kernel"`. -/
noncomputable def ContextModel.get_mcc_default (cm : ContextModel) {dg : ℕ}
    (context_gt : Fin cm.task_num → Fin dg → ℝ) : Except String ℝ :=
  cm.get_mcc context_gt "kernel"

/-- Concrete 2 × 2 data matrix with two IDENTICAL (non-constant) columns,
used as the tied-optimum input of the C7 counterexample. -/
def xSwapExample : Fin 2 → Fin 2 → ℝ :=
  fun n _ => (n.val : ℝ)

/-- The transposition of the two column indices, the concrete column
permutation of the C7 counterexample. -/
def swapPerm : Equiv.Perm (Fin 2) :=
  Equiv.swap 0 1

/-! ### Basic facts about `softplus` -/

theorem softplus_pos (x : ℝ) : 0 < softplus x := by
  have h : (1 : ℝ) < 1 + Real.exp x := by
    have := Real.exp_pos x; linarith
  exact Real.log_pos h

theorem softplus_strictMono : StrictMono softplus := by
  intro a b hab
  have h : (0 : ℝ) < 1 + Real.exp a := by
    have := Real.exp_pos a; linarith
  exact Real.log_lt_log h (by have := Real.exp_lt_exp.mpr hab; linarith)

/-! ### C1 — log-variance clamp bounds -/

/-- C1 (counterexample): with bounds `min_log_var = 0 < max_log_var = log 2`
and input `x = 1`, the two-sided softplus clamp `get_log_var` returns a
value STRICTLY GREATER than `max_log_var`, so the claimed inclusive upper
bound `get_log_var x ≤ max_log_var` is false. -/
theorem get_log_var_exceeds_max_counterexample :
    (0 : ℝ) < Real.log 2 ∧
    Real.log 2 <
      (PlainMDPWorldModel.mk 1 1 true true (0, Real.log 2)).get_log_var 1 := by
  constructor
  · exact Real.log_pos (by norm_num)
  · have hA : (0 : ℝ) < 1 + Real.exp (Real.log 2 - 1) := by positivity
    have hlt1 : Real.log 2 - 1 < 0 := by
      have := Real.log_two_lt_d9; linarith
    have hA2 : 1 + Real.exp (Real.log 2 - 1) < 2 := by
      have := Real.exp_lt_one_iff.mpr hlt1; linarith
    show Real.log 2 < 0 + softplus ((Real.log 2 - softplus (Real.log 2 - 1)) - 0)
    rw [zero_add, sub_zero]
    unfold softplus
    rw [Real.exp_sub, Real.exp_log (by norm_num : (0:ℝ) < 2), Real.exp_log hA]
    apply Real.log_lt_log (by norm_num)
    have h12 : 1 < 2 / (1 + Real.exp (Real.log 2 - 1)) := (one_lt_div hA).mpr hA2
    linarith

/-- C1 (amended): for `min_log_var < max_log_var` and EVERY real input `x`,
`get_log_var x` lies strictly between `min_log_var` and
`min_log_var + softplus (max_log_var - min_log_var)`.  In particular the
lower bound `min_log_var ≤ get_log_var x` of the claim holds, but the
output may exceed `max_log_var` itself (by less than
`softplus (min_log_var - max_log_var)`), so only this soft upper bound
holds. -/
theorem get_log_var_soft_bounds (m : PlainMDPWorldModel) (x : ℝ)
    (_h : m.log_var_bounds.1 < m.log_var_bounds.2) :
    m.log_var_bounds.1 < m.get_log_var x ∧
    m.get_log_var x <
      m.log_var_bounds.1 + softplus (m.log_var_bounds.2 - m.log_var_bounds.1) := by
  constructor
  · have := softplus_pos ((m.log_var_bounds.2 -
      softplus (m.log_var_bounds.2 - x)) - m.log_var_bounds.1)
    show m.log_var_bounds.1 < m.log_var_bounds.1 + softplus _
    linarith
  · have h1 : m.log_var_bounds.2 - softplus (m.log_var_bounds.2 - x) <
        m.log_var_bounds.2 := by
      have := softplus_pos (m.log_var_bounds.2 - x); linarith
    have h2 := softplus_strictMono (show
      (m.log_var_bounds.2 - softplus (m.log_var_bounds.2 - x)) -
        m.log_var_bounds.1 < m.log_var_bounds.2 - m.log_var_bounds.1 by linarith)
    show m.log_var_bounds.1 + softplus _ < _
    linarith

/-- Witness for `get_log_var_soft_bounds` at the constructor-default bounds
`(-10, 0.5)` and the extreme input `x = 10 ^ 6`. -/
theorem get_log_var_soft_bounds_witness :
    ((-10 : ℝ), (0.5 : ℝ)).1 < ((-10 : ℝ), (0.5 : ℝ)).2 ∧
    (PlainMDPWorldModel.mk 1 1 true true (-10, 0.5)).log_var_bounds.1 <
      (PlainMDPWorldModel.mk 1 1 true true (-10, 0.5)).get_log_var 1000000 :=
  ⟨by norm_num,
   (get_log_var_soft_bounds (PlainMDPWorldModel.mk 1 1 true true (-10, 0.5))
     1000000 (by norm_num)).1⟩

/-! ### C9 — residual next-observation mean -/

/-- C9: when `residual = true`, `get_outputs` returns a next-observation
mean equal to the current observation plus the network's predicted delta
(`mean[:, :-2]`); in particular a zero predicted delta returns the input
observation exactly. -/
theorem get_outputs_residual (m : PlainMDPWorldModel) {B : ℕ}
    (mean log_var : Fin B → Fin (m.obs_dim + 2) → ℝ)
    (observation : Fin B → Fin m.obs_dim → ℝ)
    (hres : m.residual = true) :
    (∀ b i, (m.get_outputs mean log_var observation).next_obs_mean b i =
       observation b i + mean b (Fin.castAdd 2 i)) ∧
    ((∀ b i, mean b (Fin.castAdd 2 i) = 0) →
       (m.get_outputs mean log_var observation).next_obs_mean = observation) := by
  constructor
  · intro b i
    simp [PlainMDPWorldModel.get_outputs, hres]
  · intro hzero
    funext b i
    simp [PlainMDPWorldModel.get_outputs, hres, hzero b i]

/-- Witness for `get_outputs_residual`: a zero-delta network on a concrete
1-dimensional observation returns that observation unchanged. -/
theorem get_outputs_residual_witness :
    ((PlainMDPWorldModel.mk 1 1 true true (-10, 0.5)).get_outputs
        (fun _ _ => 0 : Fin 1 → Fin 3 → ℝ) (fun _ _ => 0 : Fin 1 → Fin 3 → ℝ)
        (fun _ _ => 5)).next_obs_mean =
      (fun _ _ => (5 : ℝ)) :=
  (get_outputs_residual (PlainMDPWorldModel.mk 1 1 true true (-10, 0.5))
    (fun _ _ => 0 : Fin 1 → Fin 3 → ℝ) (fun _ _ => 0 : Fin 1 → Fin 3 → ℝ)
    (fun _ _ => 5) rfl).2 (fun _ _ => rfl)

/-! ### C3 — `ContextModel.reset` -/

/-- C3 (counterexample): a `ContextModel` constructed with the default
`task_num = 0` (i.e. no task count provided at construction) and then
`reset` with its `task_num` argument unset does NOT fail: `reset` returns
successfully (silently keeping `task_num = 0` and installing the empty
context table), contradicting the claim that this case is an error. -/
theorem reset_no_task_num_counterexample :
    isError ((ContextModel.init false 0 0 0 (fun _ _ => 0) 0).reset none
      (fun _ _ => 0)) = false := rfl

/-- C3 (amended): `reset` never fails.  It returns `ok` with the device
preserved; the new `task_num` equals the argument when it is provided and
nonzero, and otherwise (argument `None` — or `0`, both falsy under Python's
`or`) silently falls back to the stored `task_num`; the new context table
has shape `task_num' × max_context_dim` and its `(i, j)` entry is the
standard-normal draw `randn i j` scaled by `init_scale`. -/
theorem reset_spec (cm : ContextModel) (task_num : Option ℕ)
    (randn : ℕ → ℕ → ℝ) :
    ∃ cm' : ContextModel,
      cm.reset task_num randn = .ok cm' ∧
      cm'.device = cm.device ∧
      cm'.task_num = (match task_num with
        | none => cm.task_num
        | some n => if n = 0 then cm.task_num else n) ∧
      cm'.context_hat.length = cm'.task_num ∧
      (∀ i, i < cm'.task_num →
        (cm'.context_hat.getD i []).length = cm.max_context_dim) ∧
      (∀ i, i < cm'.task_num → ∀ j, j < cm.max_context_dim →
        (cm'.context_hat.getD i []).getD j 0 = randn i j * cm.init_scale) := by
  refine ⟨_, rfl, rfl, rfl, by simp, ?_, ?_⟩
  · intro i hi
    simp [List.getD_eq_getElem?_getD, List.getElem?_map, List.getElem?_range, hi]
  · intro i hi j hj
    simp [List.getD_eq_getElem?_getD, List.getElem?_map, List.getElem?_range,
      hi, hj]

/-- Witness for `reset_spec`: a concrete reset with `task_num = 2` succeeds,
sets `task_num` to 2, and writes the scaled draw into entry `(1, 0)`. -/
theorem reset_spec_witness :
    ∃ cm' : ContextModel,
      (ContextModel.init false 1 1 1 (fun _ _ => 0) 7).reset (some 2)
        (fun i j => (i : ℝ) + (j : ℝ)) = .ok cm' ∧
      cm'.device = 7 ∧ cm'.task_num = 2 ∧
      (cm'.context_hat.getD 1 []).getD 0 0 = ((1 : ℝ) + 0) * 1 := by
  obtain ⟨cm', h1, h2, h3, _, _, h6⟩ :=
    reset_spec (ContextModel.init false 1 1 1 (fun _ _ => 0) 7) (some 2)
      (fun i j => (i : ℝ) + (j : ℝ))
  have ht : cm'.task_num = 2 := h3.trans rfl
  exact ⟨cm', h1, h2, ht,
    by simpa using h6 1 (by rw [ht]; norm_num) 0 (by decide)⟩

/-! ### C5, C6 — `ContextModel.forward` -/

/-- C5: with meta mode disabled, `forward None` returns the zero-length
embedding `torch.empty(0)`, and concatenating that embedding onto any
observation tensor returns the observation unchanged in shape and content;
with meta mode enabled, `forward None` is an assertion error. -/
theorem forward_none_spec (cm : ContextModel) :
    (cm.meta = false →
      cm.forward none = .ok (.one []) ∧
      ∀ obs : List (List ℝ), cat_last obs (.one []) = .ok obs) ∧
    (cm.meta = true → isError (cm.forward none) = true) := by
  refine ⟨fun h => ⟨?_, fun obs => rfl⟩, fun h => ?_⟩
  · simp [ContextModel.forward, h]
  · simp [ContextModel.forward, h, isError]

/-- Witness for `forward_none_spec`: a concrete non-meta model returns the
empty embedding, and a concrete meta model errors on a `None` index. -/
theorem forward_none_spec_witness :
    (ContextModel.init false 0 0 0 (fun _ _ => 0) 0).forward none =
      .ok (.one []) ∧
    isError ((ContextModel.init true 4 3 1 (fun _ _ => 0) 0).forward none) =
      true :=
  ⟨((forward_none_spec (ContextModel.init false 0 0 0 (fun _ _ => 0) 0)).1
      rfl).1,
   (forward_none_spec (ContextModel.init true 4 3 1 (fun _ _ => 0) 0)).2 rfl⟩

/-- C6: `forward idx` with every row of `idx` of length 1 (last dimension
equal to 1) and every stored index a valid row number of the context table
returns exactly the corresponding rows of `context_hat` (the length-1 last
dimension squeezed away); an `idx` whose last dimension is not 1 is an
assertion error. -/
theorem forward_idx_spec (cm : ContextModel) (rows : List (List ℕ)) :
    ((∀ r ∈ rows, r.length = 1) →
      (∀ r ∈ rows, r.headD 0 < cm.context_hat.length) →
      cm.forward (some rows) =
        .ok (.two (rows.map (fun r => cm.context_hat.getD (r.headD 0) [])))) ∧
    ((∃ r ∈ rows, r.length ≠ 1) →
      isError (cm.forward (some rows)) = true) := by
  constructor
  · intro h1 h2
    have e1 : rows.all (fun r => decide (r.length = 1)) = true := by
      simp only [List.all_eq_true, decide_eq_true_eq]; exact h1
    have e2 : rows.all (fun r => decide (r.headD 0 < cm.context_hat.length))
        = true := by
      simp only [List.all_eq_true, decide_eq_true_eq]; exact h2
    simp only [ContextModel.forward]
    rw [e1, e2]
    rfl
  · rintro ⟨r, hr, hlen⟩
    have e1 : rows.all (fun r => decide (r.length = 1)) = false := by
      simp only [List.all_eq_false, decide_eq_true_eq]
      exact ⟨r, hr, hlen⟩
    simp only [ContextModel.forward]
    rw [e1]
    rfl

/-- Witness for `forward_idx_spec`: on a concrete 2-task table, batch
indices `[[0], [1], [0]]` return rows 0, 1, 0 of the table, and a malformed
index of last dimension 2 errors. -/
theorem forward_idx_spec_witness :
    (⟨true, 2, 2, 1, [[1, 2], [3, 4]], 0⟩ : ContextModel).forward
        (some [[0], [1], [0]]) =
      .ok (.two [[1, 2], [3, 4], [1, 2]]) ∧
    isError ((⟨true, 2, 2, 1, [[1, 2], [3, 4]], 0⟩ : ContextModel).forward
        (some [[0, 1]])) = true := by
  constructor
  · exact (forward_idx_spec (⟨true, 2, 2, 1, [[1, 2], [3, 4]], 0⟩ :
      ContextModel) [[0], [1], [0]]).1 (by decide) (by decide)
  · exact (forward_idx_spec (⟨true, 2, 2, 1, [[1, 2], [3, 4]], 0⟩ :
      ContextModel) [[0, 1]]).2 ⟨[0, 1], by simp, by decide⟩

/-! ### Properties of the assignment model -/

theorem lsaRows_mem {n m : ℕ} (c : Fin n → Fin m → ℝ) (h : n ≤ m) :
    lsaRows c h ∈ Injections n m :=
  (Finset.exists_max_image (Injections n m) (fun f => ∑ i, c i (f i))
    ⟨Fin.castLE h, by
      simpa [Injections] using Fin.castLE_injective h⟩).choose_spec.1

theorem lsaRows_injective {n m : ℕ} (c : Fin n → Fin m → ℝ) (h : n ≤ m) :
    Function.Injective (lsaRows c h) := by
  have := lsaRows_mem c h
  simpa [Injections] using this

theorem lsaRows_opt {n m : ℕ} (c : Fin n → Fin m → ℝ) (h : n ≤ m)
    (g : Fin n → Fin m) (hg : Function.Injective g) :
    (∑ i, c i (g i)) ≤ ∑ i, c i (lsaRows c h i) :=
  (Finset.exists_max_image (Injections n m) (fun f => ∑ i, c i (f i))
    ⟨Fin.castLE h, by
      simpa [Injections] using Fin.castLE_injective h⟩).choose_spec.2 g
    (by simpa [Injections] using hg)

theorem ccOfMethod_pearson {N d1 d2 : ℕ} (x : Fin N → Fin d1 → ℝ)
    (y : Fin N → Fin d2 → ℝ) :
    ccOfMethod "pearson" x y = .ok (ccPearson x y) := by
  simp [ccOfMethod]

theorem ccOfMethod_spearman {N d1 d2 : ℕ} (x : Fin N → Fin d1 → ℝ)
    (y : Fin N → Fin d2 → ℝ) :
    ccOfMethod "spearman" x y = .ok (ccSpearman x y) := by
  simp [ccOfMethod]

/-! ### C4 — invalid method string -/

/-- C4: `mean_corr_coef` with any method string other than `'pearson'` and
`'spearman'` raises `ValueError('not a valid method: ...')`, the method
dispatch rejecting it before any correlation or assignment computation. -/
theorem mean_corr_coef_invalid_method {N d1 d2 : ℕ} (x : Fin N → Fin d1 → ℝ)
    (y : Fin N → Fin d2 → ℝ) (method : String)
    (h1 : method ≠ "pearson") (h2 : method ≠ "spearman") :
    mean_corr_coef x y method = .error ("not a valid method: " ++ method) := by
  simp [mean_corr_coef, ccOfMethod, h1, h2]

/-- Witness for `mean_corr_coef_invalid_method` at the method string
`'kendall'` on a concrete 2 × 2 input. -/
theorem mean_corr_coef_invalid_method_witness :
    "kendall" ≠ "pearson" ∧ "kendall" ≠ "spearman" ∧
    mean_corr_coef (fun (_ : Fin 2) (_ : Fin 2) => (0 : ℝ))
        (fun (_ : Fin 2) (_ : Fin 2) => (0 : ℝ)) "kendall" =
      .error ("not a valid method: " ++ "kendall") :=
  ⟨by decide, by decide,
   mean_corr_coef_invalid_method (fun (_ : Fin 2) (_ : Fin 2) => (0 : ℝ))
     (fun (_ : Fin 2) (_ : Fin 2) => (0 : ℝ)) "kendall" (by decide) (by decide)⟩

/-! ### C10 — `get_mcc` default method -/

/-- C10: `get_mcc` called without an explicit method uses the default
`method="kernel"`, which `mean_corr_coef` rejects, so the call always
raises `ValueError('not a valid method: kernel')` and never returns a
score. -/
theorem get_mcc_default_always_errors (cm : ContextModel) {dg : ℕ}
    (context_gt : Fin cm.task_num → Fin dg → ℝ) :
    cm.get_mcc_default context_gt =
      .error ("not a valid method: " ++ "kernel") := by
  simp [ContextModel.get_mcc_default, ContextModel.get_mcc, mean_corr_coef,
    ccOfMethod]

theorem div_le_div_of_le_nonneg {a b M : ℝ} (hab : a ≤ b) (hM : 0 ≤ M) :
    a / M ≤ b / M := by
  rcases eq_or_lt_of_le hM with hM0 | hMpos
  · rw [← hM0]; simp
  · exact (div_le_div_iff_of_pos_right hMpos).mpr hab

/-! ### C2 — optimal assignment, not greedy -/

/-- C2: for method `'pearson'` or `'spearman'` (with correlation matrix
`c`), `mean_corr_coef` succeeds and returns exactly the summed absolute
correlations over an OPTIMAL one-to-one assignment of the `min(d1, d2)`
column pairs, divided by `max(d1, d2)`: every injective matching's
normalised sum is bounded by the returned score (so no greedy shortfall is
possible) and some injective matching attains it.  For `d1 ≤ d2` matchings
send `x`-columns to distinct `y`-columns, otherwise the reverse. -/
theorem mean_corr_coef_optimal_assignment {N d1 d2 : ℕ}
    (x : Fin N → Fin d1 → ℝ) (y : Fin N → Fin d2 → ℝ) (method : String)
    (c : Fin d1 → Fin d2 → ℝ)
    (hc : method = "pearson" ∧ c = ccPearson x y ∨
          method = "spearman" ∧ c = ccSpearman x y) :
    ∃ s, mean_corr_coef x y method = .ok s ∧
      (d1 ≤ d2 →
        (∀ g : Fin d1 → Fin d2, Function.Injective g →
          (∑ i, |c i (g i)|) / ((max d1 d2 : ℕ) : ℝ) ≤ s) ∧
        ∃ f : Fin d1 → Fin d2, Function.Injective f ∧
          s = (∑ i, |c i (f i)|) / ((max d1 d2 : ℕ) : ℝ)) ∧
      (¬ d1 ≤ d2 →
        (∀ g : Fin d2 → Fin d1, Function.Injective g →
          (∑ j, |c (g j) j|) / ((max d1 d2 : ℕ) : ℝ) ≤ s) ∧
        ∃ f : Fin d2 → Fin d1, Function.Injective f ∧
          s = (∑ j, |c (f j) j|) / ((max d1 d2 : ℕ) : ℝ)) := by
  have hcc : ccOfMethod method x y = .ok c := by
    rcases hc with ⟨hm, hceq⟩ | ⟨hm, hceq⟩
    · rw [hm, hceq]; exact ccOfMethod_pearson x y
    · rw [hm, hceq]; exact ccOfMethod_spearman x y
  refine ⟨assignScore (fun i j => |c i j|) / ((max d1 d2 : ℕ) : ℝ),
    ?_, ?_, ?_⟩
  · unfold mean_corr_coef
    rw [hcc]
  · intro h
    have hscore : assignScore (fun i j => |c i j|) =
        ∑ i, |c i (lsaRows (fun i j => |c i j|) h i)| := by
      unfold assignScore; rw [dif_pos h]
    refine ⟨fun g hg => ?_, lsaRows (fun i j => |c i j|) h,
      lsaRows_injective _ h, by rw [hscore]⟩
    rw [hscore]
    exact div_le_div_of_le_nonneg (lsaRows_opt (fun i j => |c i j|) h g hg)
      (Nat.cast_nonneg _)
  · intro h
    have hscore : assignScore (fun i j => |c i j|) =
        ∑ j, |c (lsaRows (fun j i => |c i j|) (le_of_not_le h) j) j| := by
      unfold assignScore; rw [dif_neg h]
    refine ⟨fun g hg => ?_, lsaRows (fun j i => |c i j|) (le_of_not_le h),
      lsaRows_injective _ _, by rw [hscore]⟩
    rw [hscore]
    exact div_le_div_of_le_nonneg
      (lsaRows_opt (fun j i => |c i j|) (le_of_not_le h) g hg)
      (Nat.cast_nonneg _)

/-- Witness for `mean_corr_coef_optimal_assignment` on a concrete
single-column pair: the score is attained by an injective matching. -/
theorem mean_corr_coef_optimal_assignment_witness :
    ∃ s, mean_corr_coef (fun (n : Fin 2) (_ : Fin 1) => (n.val : ℝ))
        (fun (n : Fin 2) (_ : Fin 1) => (n.val : ℝ)) "pearson" = .ok s ∧
      ∃ f : Fin 1 → Fin 1, Function.Injective f ∧
        s = (∑ i, |ccPearson (fun (n : Fin 2) (_ : Fin 1) => (n.val : ℝ))
              (fun (n : Fin 2) (_ : Fin 1) => (n.val : ℝ)) i (f i)|) /
            ((max 1 1 : ℕ) : ℝ) := by
  obtain ⟨s, h1, h2, -⟩ :=
    mean_corr_coef_optimal_assignment
      (fun (n : Fin 2) (_ : Fin 1) => (n.val : ℝ))
      (fun (n : Fin 2) (_ : Fin 1) => (n.val : ℝ)) "pearson"
      (ccPearson (fun (n : Fin 2) (_ : Fin 1) => (n.val : ℝ))
        (fun (n : Fin 2) (_ : Fin 1) => (n.val : ℝ)))
      (Or.inl ⟨rfl, rfl⟩)
  exact ⟨s, h1, (h2 (le_refl 1)).2⟩

/-! ### C8 — identical matrices give score 1 -/

theorem cmoment_self_nonneg {N : ℕ} (u : Fin N → ℝ) : 0 ≤ cmoment u u :=
  Finset.sum_nonneg fun _ _ => mul_self_nonneg _

theorem cmoment_self_pos {N : ℕ} (u : Fin N → ℝ)
    (hne : ∃ a b, u a ≠ u b) : 0 < cmoment u u := by
  rcases hne with ⟨a, b, hab⟩
  rcases lt_or_eq_of_le (cmoment_self_nonneg u) with hpos | hzero
  · exact hpos
  · exfalso
    have hz : ∀ n ∈ Finset.univ,
        (u n - sampleMean u) * (u n - sampleMean u) = 0 :=
      (Finset.sum_eq_zero_iff_of_nonneg fun _ _ => mul_self_nonneg _).mp
        hzero.symm
    have hu : ∀ n, u n = sampleMean u := fun n => by
      have := mul_self_eq_zero.mp (hz n (Finset.mem_univ n)); linarith
    exact hab ((hu a).trans (hu b).symm)

theorem abs_pearson_le_one {N : ℕ} (u v : Fin N → ℝ) : |pearson u v| ≤ 1 := by
  have hcs : (cmoment u v) ^ 2 ≤ cmoment u u * cmoment v v := by
    have := Finset.sum_mul_sq_le_sq_mul_sq Finset.univ
      (fun n => u n - sampleMean u) (fun n => v n - sampleMean v)
    simpa [cmoment, pow_two] using this
  have habs : |cmoment u v| ≤
      Real.sqrt (cmoment u u) * Real.sqrt (cmoment v v) := by
    rw [← Real.sqrt_sq_eq_abs, ← Real.sqrt_mul (cmoment_self_nonneg u)]
    exact Real.sqrt_le_sqrt hcs
  have hdnn : (0:ℝ) ≤ Real.sqrt (cmoment u u) * Real.sqrt (cmoment v v) := by
    positivity
  unfold pearson
  rw [abs_div, abs_of_nonneg hdnn]
  rcases eq_or_lt_of_le hdnn with hd0 | hdpos
  · rw [← hd0, div_zero]; norm_num
  · exact (div_le_one hdpos).mpr habs

theorem pearson_self {N : ℕ} (u : Fin N → ℝ) (hne : ∃ a b, u a ≠ u b) :
    pearson u u = 1 := by
  have hpos := cmoment_self_pos u hne
  unfold pearson
  rw [Real.mul_self_sqrt (cmoment_self_nonneg u)]
  exact div_self (ne_of_gt hpos)

/-- C8: `mean_corr_coef(x, x, 'pearson')` for a nonempty square matrix `x`
none of whose columns is constant returns exactly 1 (the `1.0` of the
claim, which allows float tolerance): every absolute correlation is at most
1, the identity matching attains `|corr| = 1` on the diagonal, so the
optimal assignment sums to `d` and the normalisation divides by
`max(d, d) = d`. -/
theorem mean_corr_coef_self_eq_one {N d : ℕ} (x : Fin N → Fin d → ℝ)
    (hd : 0 < d) (hnc : ∀ j : Fin d, ∃ a b, x a j ≠ x b j) :
    mean_corr_coef x x "pearson" = .ok 1 := by
  unfold mean_corr_coef
  rw [ccOfMethod_pearson]
  show Except.ok ((assignScore fun i j => |ccPearson x x i j|) /
    ((max d d : ℕ) : ℝ)) = Except.ok 1
  have hdiag : ∀ i : Fin d, |ccPearson x x i i| = 1 := fun i => by
    have h1 : ccPearson x x i i = 1 := pearson_self (matCol x i) (hnc i)
    rw [h1, abs_one]
  have hscore : assignScore (fun i j => |ccPearson x x i j|) = d := by
    unfold assignScore
    rw [dif_pos (le_refl d)]
    apply le_antisymm
    · calc (∑ i, |ccPearson x x i
            (lsaRows (fun i j => |ccPearson x x i j|) (le_refl d) i)|)
          ≤ ∑ _i : Fin d, (1:ℝ) :=
            Finset.sum_le_sum (fun i _ => abs_pearson_le_one _ _)
        _ = d := by simp
    · have hid : Function.Injective (fun i : Fin d => i) := fun _ _ hab => hab
      have hopt := lsaRows_opt (fun i j => |ccPearson x x i j|) (le_refl d)
        (fun i => i) hid
      calc (d : ℝ) = ∑ _i : Fin d, (1:ℝ) := by simp
        _ = ∑ i, |ccPearson x x i i| :=
            Finset.sum_congr rfl (fun i _ => (hdiag i).symm)
        _ ≤ _ := hopt
  rw [hscore]
  have hmax : ((max d d : ℕ) : ℝ) = d := by simp
  rw [hmax, div_self (by exact_mod_cast hd.ne' : (d:ℝ) ≠ 0)]

/-- Witness for `mean_corr_coef_self_eq_one`: a concrete non-constant
single-column matrix scores exactly 1 against itself. -/
theorem mean_corr_coef_self_eq_one_witness :
    0 < 1 ∧
    mean_corr_coef (fun (n : Fin 2) (_ : Fin 1) => (n.val : ℝ))
      (fun (n : Fin 2) (_ : Fin 1) => (n.val : ℝ)) "pearson" = .ok 1 :=
  ⟨by decide,
   mean_corr_coef_self_eq_one (fun (n : Fin 2) (_ : Fin 1) => (n.val : ℝ))
     (by decide) (fun _ => ⟨0, 1, by norm_num⟩)⟩

/-! ### C7 — column-permutation invariance -/

theorem assignScore_comp_perm {d1 d2 : ℕ} (c : Fin d1 → Fin d2 → ℝ)
    (σ : Equiv.Perm (Fin d2)) :
    assignScore (fun i j => c i (σ j)) = assignScore c := by
  unfold assignScore
  by_cases h : d1 ≤ d2
  · rw [dif_pos h, dif_pos h]
    apply le_antisymm
    · exact lsaRows_opt c h
        (fun i => σ (lsaRows (fun i j => c i (σ j)) h i))
        (fun a b hab =>
          lsaRows_injective (fun i j => c i (σ j)) h (σ.injective hab))
    · have hop := lsaRows_opt (fun i j => c i (σ j)) h
        (fun i => σ.symm (lsaRows c h i))
        (fun a b hab => lsaRows_injective c h (σ.symm.injective hab))
      simpa using hop
  · rw [dif_neg h, dif_neg h]
    have h' := le_of_not_le h
    apply le_antisymm
    · have hre := Equiv.sum_comp σ (fun j =>
        c (lsaRows (fun j i => c i (σ j)) h' (σ.symm j)) j)
      simp only [Equiv.symm_apply_apply] at hre
      exact le_trans (le_of_eq hre)
        (lsaRows_opt (fun j i => c i j) h'
          (fun j => lsaRows (fun j i => c i (σ j)) h' (σ.symm j))
          (fun a b hab => σ.symm.injective
            (lsaRows_injective (fun j i => c i (σ j)) h' hab)))
    · have hre := Equiv.sum_comp σ (fun j =>
        c (lsaRows (fun j i => c i j) h' j) j)
      exact le_trans (le_of_eq hre.symm)
        (lsaRows_opt (fun j i => c i (σ j)) h'
          (fun j => lsaRows (fun j i => c i j) h' (σ j))
          (fun a b hab => σ.injective
            (lsaRows_injective (fun j i => c i j) h' hab)))

/-- C7 (amended): the `mean_corr_coef` score with the Pearson method is
invariant under any column permutation of its second argument, and the
returned assignment for the permuted input is an optimal injective
assignment of the permuted problem.  (When the optimum is not unique, the
returned assignment need NOT be the original assignment composed with the
inverse permutation — see the counterexample.) -/
theorem mean_corr_coef_perm_cols {N d1 d2 : ℕ} (x : Fin N → Fin d1 → ℝ)
    (y : Fin N → Fin d2 → ℝ) (σ : Equiv.Perm (Fin d2)) :
    mean_corr_coef x (fun n j => y n (σ j)) "pearson" =
      mean_corr_coef x y "pearson" ∧
    (∀ h : d1 ≤ d2, ∃ f' : Fin d1 → Fin d2,
      mccAssign x (fun n j => y n (σ j)) "pearson" h = .ok f' ∧
      Function.Injective f' ∧
      ∀ g : Fin d1 → Fin d2, Function.Injective g →
        (∑ i, |ccPearson x (fun n j => y n (σ j)) i (g i)|) ≤
          ∑ i, |ccPearson x (fun n j => y n (σ j)) i (f' i)|) := by
  constructor
  · unfold mean_corr_coef
    rw [ccOfMethod_pearson, ccOfMethod_pearson]
    have key := assignScore_comp_perm (fun i j => |ccPearson x y i j|) σ
    exact congrArg (fun s => Except.ok (s / ((max d1 d2 : ℕ) : ℝ))) key
  · intro h
    refine ⟨lsaRows
      (fun i j => |ccPearson x (fun n j => y n (σ j)) i j|) h, ?_,
      lsaRows_injective _ h, fun g hg => lsaRows_opt
        (fun i j => |ccPearson x (fun n j => y n (σ j)) i j|) h g hg⟩
    unfold mccAssign
    rw [ccOfMethod_pearson]

/-- Witness for `mean_corr_coef_perm_cols`: concrete 2 × 2 data and the
column swap; the score is invariant and the permuted problem's returned
assignment exists and is injective. -/
theorem mean_corr_coef_perm_cols_witness :
    mean_corr_coef xSwapExample (fun n j => xSwapExample n (swapPerm j))
        "pearson" =
      mean_corr_coef xSwapExample xSwapExample "pearson" ∧
    ∃ f' : Fin 2 → Fin 2,
      mccAssign xSwapExample (fun n j => xSwapExample n (swapPerm j))
          "pearson" (le_refl 2) = .ok f' ∧
      Function.Injective f' := by
  obtain ⟨h1, h2⟩ := mean_corr_coef_perm_cols xSwapExample xSwapExample swapPerm
  obtain ⟨f', hf1, hf2, -⟩ := h2 (le_refl 2)
  exact ⟨h1, f', hf1, hf2⟩

/-- C7 (counterexample): with `x = y` a matrix whose two columns are
IDENTICAL, permuting the columns of `y` by the swap leaves the input
literally unchanged, so the (deterministic) assignment solver returns the
SAME assignment for both calls — while the claim demands the returned
assignment be the original composed with the inverse permutation, which
differs because the swap moves every point of `Fin 2`.  Hence the
assignment clause of the claim is false at this input (the optimum is
tied). -/
theorem mean_corr_coef_perm_assign_counterexample :
    ¬ (mean_corr_coef xSwapExample
          (fun n j => xSwapExample n (swapPerm j)) "pearson" =
        mean_corr_coef xSwapExample xSwapExample "pearson" ∧
       mccAssign xSwapExample (fun n j => xSwapExample n (swapPerm j))
           "pearson" (le_refl 2) =
         (mccAssign xSwapExample xSwapExample "pearson" (le_refl 2)).map
           (fun f => fun i => swapPerm.symm (f i))) := by
  rintro ⟨-, h2⟩
  have hF : mccAssign xSwapExample xSwapExample "pearson" (le_refl 2) =
      .ok (lsaRows (fun i j => |ccPearson xSwapExample xSwapExample i j|)
        (le_refl 2)) := by
    unfold mccAssign
    rw [ccOfMethod_pearson]
  have hFp : mccAssign xSwapExample
      (fun n j => xSwapExample n (swapPerm j)) "pearson" (le_refl 2) =
      .ok (lsaRows (fun i j => |ccPearson xSwapExample xSwapExample i j|)
        (le_refl 2)) := hF
  rw [hF, hFp] at h2
  simp only [Except.map] at h2
  have h3 := congrFun (Except.ok.inj h2) 0
  have h5 : ∀ z : Fin 2, swapPerm.symm z ≠ z := by decide
  exact h5 _ (h3.symm)

end Intact
